import Mathlib

/-!
Verification of the auto-tagging core of the quotes CMS.

The definitions below are a shallow embedding of the Python sources:
  - `app/auto_tagger.py`: dictionary loading (`load_rows`), whole-word keyword
    matching (`extract_keywords`), tag synthesis (`generate_auto_tags`),
    statistics (`get_tag_statistics`), and the module-level cache behaviour
    (`load_keyword_mappings_st`, `reload_keyword_mappings_st`,
    `get_keyword_mappings_st`).
  - `app/app.py` (`remove_auto_tag` route): the state transformation on a
    quote's `auto_tags` / `removed_auto_tags` fields.

Strings are modelled with Lean `String` (a list of characters); Python's
`str.lower` is modelled by `Char.toLower` per character (ASCII case folding,
which coincides with Python on the ASCII range), and `str.strip` by removing
ASCII whitespace at both ends.  Python dictionaries are modelled as
association lists with Python's insertion-order/overwrite semantics
(`dictInsert`).  Python floats are modelled with `ℚ`; `round(x, 1)` is
modelled as rounding `10*x` to the nearest integer (`round1`).
-/

/-- Python `[a-zA-Z]`: the character class used in the matcher's
lookbehind/lookahead `(?<![a-zA-Z]) ... (?![a-zA-Z])`. -/
def isAlphaAZ (c : Char) : Bool :=
  ('a' ≤ c && c ≤ 'z') || ('A' ≤ c && c ≤ 'Z')

/-- Python whitespace stripped by `str.strip()` (ASCII range:
space, tab, newline, carriage return, vertical tab, form feed). -/
def isWsChar (c : Char) : Bool :=
  c == ' ' || c == '\t' || c == '\n' || c == '\r' ||
  c == Char.ofNat 11 || c == Char.ofNat 12

/-- Python `s.strip()` on a character list: drop whitespace at both ends. -/
def trimChars (l : List Char) : List Char :=
  ((l.dropWhile isWsChar).reverse.dropWhile isWsChar).reverse

/-- Python `s.strip()`. -/
def strTrim (s : String) : String := ⟨trimChars s.data⟩

/-- Python `s.lower()` (ASCII case folding). -/
def strLower (s : String) : String := ⟨s.data.map Char.toLower⟩

/-- Python `s.strip().lower()`, the normalization applied by
`load_keyword_mappings` to keywords and tags (and the spec's `normalize`). -/
def strTrimLower (s : String) : String := strLower (strTrim s)

/-- Python `s.split(',')` on a character list. -/
def splitComma : List Char → List (List Char)
  | [] => [[]]
  | c :: rest =>
    let r := splitComma rest
    if c = ',' then [] :: r
    else
      match r with
      | [] => [[c]]
      | g :: gs => (c :: g) :: gs

/-- Tag cell parsing of `auto_tagger.load_keyword_mappings`:
`[tag.strip().lower() for tag in tags_str.split(',') if tag.strip()]`. -/
def parseTagsField (tags_str : String) : List String :=
  ((splitComma tags_str.data).filter (fun t => trimChars t ≠ [])).map
    (fun t => ⟨(trimChars t).map Char.toLower⟩)

/-- One row of `auto_tagger.load_keyword_mappings`'s loop:
`keyword = row.get('keyword','').strip().lower()`,
`tags_str = row.get('tags','').strip()`, and the guard
`if keyword and tags_str`.  Returns the entry stored for the row, if any. -/
def rowEntry (row : String × String) : Option (String × List String) :=
  let keyword := strTrimLower row.1
  let tags_str := strTrim row.2
  if keyword ≠ "" ∧ tags_str ≠ "" then some (keyword, parseTagsField tags_str)
  else none

/-- Python `dict` assignment `m[k] = v`: replace the value in place if the
key is present (insertion position preserved), otherwise append at the end. -/
def dictInsert (k : String) (v : List String) :
    List (String × List String) → List (String × List String)
  | [] => [(k, v)]
  | p :: rest => if p.1 = k then (k, v) :: rest else p :: dictInsert k v rest

/-- Body of `auto_tagger.load_keyword_mappings`'s CSV loop: builds the
`mappings` dict from the parsed rows (each row modelled as its
`(keyword, tags)` cell pair). -/
def load_rows (rows : List (String × String)) : List (String × List String) :=
  rows.foldl
    (fun m row =>
      match rowEntry row with
      | some (k, v) => dictInsert k v m
      | none => m)
    []

/-- Python `m.find` for our dict model: `m.get(k)` (first entry with key `k`;
keys are unique under `dictInsert`). -/
def findVal (m : List (String × List String)) (k : String) :
    Option (List String) :=
  (m.find? (fun p => p.1 == k)).map Prod.snd

/-- Python `mappings.get(keyword, [])`. -/
def lookupTags (m : List (String × List String)) (k : String) : List String :=
  (findVal m k).getD []

/-! ## Whole-word matcher (`extract_keywords`)

`extract_keywords` lowers the text and searches, for each dictionary keyword,
for the regex `(?<![a-zA-Z])` + `re.escape(keyword)` + `(?![a-zA-Z])`: a
literal occurrence of the keyword whose neighbouring characters (when they
exist) are not ASCII letters.  `searchFrom` scans candidate match positions
left to right, carrying the previous character for the lookbehind. -/

/-- Test that `kw` is a literal prefix of `t`. -/
def listStartsWith : List Char → List Char → Bool
  | [], _ => true
  | _ :: _, [] => false
  | a :: as, b :: bs => a == b && listStartsWith as bs

/-- Boundary test of the lookaround `(?<![a-zA-Z])` / `(?![a-zA-Z])`:
no neighbouring character, or a non-letter one. -/
def okBoundary : Option Char → Bool
  | none => true
  | some c => !isAlphaAZ c

/-- The regex matches at the current position: the previous character (if
any) is not a letter, `kw` occurs literally here, and the character right
after it (if any) is not a letter. -/
def matchesHere (kw t : List Char) (prev : Option Char) : Bool :=
  okBoundary prev && listStartsWith kw t && okBoundary (t.drop kw.length).head?

/-- Python `re.search`: try the pattern at every position of `t`, left to right,
where `prev` is the character just before `t` in the full text. -/
def searchFrom (kw : List Char) : Option Char → List Char → Bool
  | prev, [] => matchesHere kw [] prev
  | prev, c :: rest => matchesHere kw (c :: rest) prev || searchFrom kw (some c) rest

/-- The call `re.search(r'(?<![a-zA-Z])' + re.escape(kw) + r'(?![a-zA-Z])', text)`
as a Boolean: does `kw` occur in `text` as a whole word? -/
def wholeWordSearch (kw text : List Char) : Bool :=
  searchFrom kw none text

/-- Function `auto_tagger.extract_keywords`: the set of dictionary keywords occurring
in `text` (lower-cased) as whole words.  Python returns a `set`; we return
the matching keys in dictionary order (keys are unique). -/
def extract_keywords (mappings : List (String × List String)) (text : String) :
    List String :=
  if text = "" then []
  else if mappings = [] then []
  else
    (mappings.map Prod.fst).filter
      (fun kw => wholeWordSearch kw.data (text.data.map Char.toLower))

/-! ## Tag synthesis (`generate_auto_tags`) -/

/-- Python string comparison (`sorted`): lexicographic order on code points. -/
def strLtB : List Char → List Char → Bool
  | [], [] => false
  | [], _ :: _ => true
  | _ :: _, [] => false
  | a :: as, b :: bs =>
    if a.toNat < b.toNat then true
    else if b.toNat < a.toNat then false
    else strLtB as bs

/-- Comparison `a ≤ b` in Python string order. -/
def strLeB (a b : String) : Bool := !strLtB b.data a.data

/-- Comparison `a ≤ b` in Python string order, as a relation for sorting.  Python's
`sorted` is a stable sort; we model it with `List.insertionSort`, which is
also stable, so both produce the same list. -/
def strLeP (a b : String) : Prop := strLeB a b = true

instance : DecidableRel strLeP :=
  fun a b => inferInstanceAs (Decidable (strLeB a b = true))

/-- Function `auto_tagger.generate_auto_tags`: match keywords, union their tags,
subtract the lower-cased removed tags (Python checks `if removed_tags:`, so
`None` and `[]` behave identically and are both modelled by `[]`), and
return the sorted list.  Python's tag `set` is modelled by `dedup`; only
membership in it is ever used. -/
def generate_auto_tags (mappings : List (String × List String))
    (quote_text : String) (removed_tags : List String) : List String :=
  if quote_text = "" then []
  else if mappings = [] then []
  else
    let matched := extract_keywords mappings quote_text
    let all_tags := ((matched.map (fun k => lookupTags mappings k)).flatten).dedup
    let remaining :=
      if removed_tags = [] then all_tags
      else
        let removed_tags_lower := removed_tags.map strLower
        all_tags.filter (fun t => decide (t ∉ removed_tags_lower))
    List.insertionSort strLeP remaining

/-! ## Remove-one-tag (`app.remove_auto_tag`) -/

/-- The `auto_tags` / `removed_auto_tags` fields of a stored quote. -/
structure QuoteTagState where
  auto_tags : List String
  removed_auto_tags : List String
deriving DecidableEq

/-- Route handler `app.remove_auto_tag`, the state transformation on the quote's tag
fields (HTTP/database plumbing omitted): reject an empty tag
(`if not tag_to_remove`), report not-found when the lower-cased tag does not
occur among the lower-cased `auto_tags` (no state change — the code returns
before the update), otherwise drop every case-insensitive occurrence from
`auto_tags` and append the lower-cased tag to `removed_auto_tags` unless a
case-insensitive occurrence is already there. -/
def remove_auto_tag (st : QuoteTagState) (tag : String) :
    Except String QuoteTagState :=
  if tag = "" then .error "Tag is required"
  else
    let tagL := strLower tag
    if tagL ∈ st.auto_tags.map strLower then
      let newAuto := st.auto_tags.filter (fun t => strLower t != tagL)
      let newRemoved :=
        if tagL ∈ st.removed_auto_tags.map strLower then st.removed_auto_tags
        else st.removed_auto_tags ++ [tagL]
      .ok ⟨newAuto, newRemoved⟩
    else .error "Tag not found in auto_tags"

/-! ## Statistics (`get_tag_statistics`) -/

/-- Python `tag_frequency[tag] = tag_frequency.get(tag, 0) + 1` on an
insertion-ordered dict. -/
def bumpTag (freq : List (String × Nat)) (tag : String) : List (String × Nat) :=
  match freq with
  | [] => [(tag, 1)]
  | p :: rest =>
    if p.1 = tag then (p.1, p.2 + 1) :: rest else p :: bumpTag rest tag

/-- The `tag_frequency` dict after the counting loop of
`get_tag_statistics` (tags lower-cased, dict in insertion order). -/
def tagFreqFold (all_quotes_data : List (List String)) : List (String × Nat) :=
  all_quotes_data.foldl
    (fun freq q => q.foldl (fun f t => bumpTag f (strLower t)) freq) []

/-- Python `round(x, 1)` modelled over `ℚ`: round `10*x` to the nearest
integer and divide by ten.  (Python rounds the IEEE double half-to-even; on
the rationals arising here the two agree except at exact `.x5` ties, which
no claim exercises.) -/
def round1 (q : ℚ) : ℚ := (round (10 * q) : ℤ) / 10

/-- The comparator of `sorted(tag_frequency.items(), key=lambda x: x[1],
reverse=True)`: a stable sort putting larger counts first. -/
def countGeP (a b : String × Nat) : Prop := b.2 ≤ a.2

instance : DecidableRel countGeP :=
  fun a b => inferInstanceAs (Decidable (b.2 ≤ a.2))

/-- Result record of `get_tag_statistics`. -/
structure TagStats where
  total_quotes : Nat
  quotes_with_auto_tags : Nat
  coverage_percentage : ℚ
  tag_frequency : List (String × Nat)
  top_tags : List (String × Nat)
  total_unique_auto_tags : Nat
  total_keyword_mappings : Nat

/-- Function `auto_tagger.get_tag_statistics`.  Each quote is modelled by its
`auto_tags` list (`quote.get('auto_tags', [])`, with `None`/missing as `[]`).
`sorted(..., key=lambda x: x[1], reverse=True)` is a stable descending sort
by count, i.e. `mergeSort` with `b.2 ≤ a.2`.  `mappings` is the current
dictionary snapshot read by `get_keyword_mappings()`. -/
def get_tag_statistics (all_quotes_data : List (List String))
    (mappings : List (String × List String)) : TagStats :=
  let total_quotes := all_quotes_data.length
  let quotes_with_auto_tags := (all_quotes_data.filter (fun q => !q.isEmpty)).length
  let tag_frequency := tagFreqFold all_quotes_data
  let coverage_percentage : ℚ :=
    if 0 < total_quotes then
      (quotes_with_auto_tags : ℚ) / (total_quotes : ℚ) * 100
    else 0
  { total_quotes := total_quotes
    quotes_with_auto_tags := quotes_with_auto_tags
    coverage_percentage := round1 coverage_percentage
    tag_frequency := tag_frequency
    top_tags := (List.insertionSort countGeP tag_frequency).take 20
    total_unique_auto_tags := tag_frequency.length
    total_keyword_mappings := mappings.length }

/-! ## Module-level cache behaviour (`load` / `reload` / `get`) -/

/-- The possible states of the CSV source seen by
`load_keyword_mappings`: the file is missing (`os.path.exists` false),
reading/parsing raises, or it parses into a row list. -/
inductive CsvSource where
  | missing
  | ioError
  | rows (rs : List (String × String))

/-- Function `auto_tagger.load_keyword_mappings` as a transformation of the
process-wide cache `_keyword_mappings`: returns `(returned value, new cache)`.
Missing file: return the fresh empty local `mappings`, cache untouched.
Exception: `_keyword_mappings = {}` and that is returned.
Success: the parsed dict replaces the cache and is returned. -/
def load_keyword_mappings_st (cache : List (String × List String))
    (src : CsvSource) :
    List (String × List String) × List (String × List String) :=
  match src with
  | .missing => ([], cache)
  | .ioError => ([], [])
  | .rows rs => (load_rows rs, load_rows rs)

/-- Function `auto_tagger.reload_keyword_mappings`: run the load, then report
`len(_keyword_mappings)` of the (possibly unchanged) cache. -/
def reload_keyword_mappings_st (cache : List (String × List String))
    (src : CsvSource) : Nat × List (String × List String) :=
  let c := (load_keyword_mappings_st cache src).2
  (c.length, c)

/-- Function `auto_tagger.get_keyword_mappings`: load only when the cache is empty,
then return the cache. -/
def get_keyword_mappings_st (cache : List (String × List String))
    (src : CsvSource) :
    List (String × List String) × List (String × List String) :=
  if cache = [] then
    let c := (load_keyword_mappings_st cache src).2
    (c, c)
  else (cache, cache)

/-! ## Specification-side definitions -/

/-- Spec-side reading of §4.2: `kw` occurs in `text` as a whole word — the
text splits as `pre ++ kw ++ post` where the character adjacent to the
occurrence on either side, when present, is not a letter. -/
def occursWholeWord (kw text : List Char) : Prop :=
  ∃ pre post, text = pre ++ kw ++ post ∧
    (∀ c, pre.getLast? = some c → isAlphaAZ c = false) ∧
    (∀ c, post.head? = some c → isAlphaAZ c = false)

/-- Spec-side comparator of §4.4 for `topTags` as C7 states it: descending
by count, ties broken by tag in ascending lexicographic order. -/
def topTagsSpecP (a b : String × Nat) : Prop :=
  b.2 < a.2 ∨ (a.2 = b.2 ∧ strLeP a.1 b.1)

instance : DecidableRel topTagsSpecP :=
  fun a b => inferInstanceAs (Decidable (b.2 < a.2 ∨ (a.2 = b.2 ∧ strLeP a.1 b.1)))

/-- Definition of `topTags` as claim C7 describes it: the frequency pairs sorted by
`topTagsSpecP`, truncated to 20. -/
def topTagsSpec (freq : List (String × Nat)) : List (String × Nat) :=
  (List.insertionSort topTagsSpecP freq).take 20

/-! ## Order facts about the string comparator -/

lemma strLtB_asymm : ∀ (a b : List Char),
    strLtB a b = true → strLtB b a = false
  | [], [], h => by simp [strLtB] at h
  | [], _ :: _, _ => rfl
  | _ :: _, [], h => by simp [strLtB] at h
  | x :: as, y :: bs, h => by
    simp only [strLtB] at h ⊢
    by_cases hxy : x.toNat < y.toNat
    · rw [if_neg (by omega), if_pos hxy]
    · rw [if_neg hxy] at h
      by_cases hyx : y.toNat < x.toNat
      · rw [if_pos hyx] at h
        exact absurd h (by simp)
      · rw [if_neg hyx] at h
        rw [if_neg hyx, if_neg hxy]
        exact strLtB_asymm as bs h

lemma strLtB_le_trans : ∀ (a b c : List Char),
    strLtB b a = false → strLtB c b = false → strLtB c a = false
  | [], _, [], _, _ => rfl
  | x :: as, [], [], h1, _ => by simp [strLtB] at h1
  | x :: as, y :: bs, [], _, h2 => by simp [strLtB] at h2
  | [], _, _ :: _, _, _ => rfl
  | x :: as, [], z :: cs, h1, _ => by simp [strLtB] at h1
  | x :: as, y :: bs, z :: cs, h1, h2 => by
    simp only [strLtB] at h1 h2 ⊢
    by_cases hyx : y.toNat < x.toNat
    · rw [if_pos hyx] at h1
      exact absurd h1 (by simp)
    · rw [if_neg hyx] at h1
      by_cases hzy : z.toNat < y.toNat
      · rw [if_pos hzy] at h2
        exact absurd h2 (by simp)
      · rw [if_neg hzy] at h2
        rw [if_neg (show ¬z.toNat < x.toNat by omega)]
        by_cases hxz : x.toNat < z.toNat
        · rw [if_pos hxz]
        · rw [if_neg hxz]
          rw [if_neg (show ¬x.toNat < y.toNat by omega)] at h1
          rw [if_neg (show ¬y.toNat < z.toNat by omega)] at h2
          exact strLtB_le_trans as bs cs h1 h2

instance : IsTotal String strLeP where
  total a b := by
    unfold strLeP strLeB
    cases h : strLtB b.data a.data with
    | false => exact Or.inl rfl
    | true => exact Or.inr (by rw [strLtB_asymm b.data a.data h]; rfl)

instance : IsTrans String strLeP where
  trans a b c h1 h2 := by
    unfold strLeP strLeB at h1 h2 ⊢
    rw [Bool.not_eq_true'] at h1 h2 ⊢
    exact strLtB_le_trans a.data b.data c.data h1 h2

instance : IsTotal (String × Nat) countGeP where
  total a b := by
    unfold countGeP
    exact (Nat.le_total a.2 b.2).symm

instance : IsTrans (String × Nat) countGeP where
  trans a b c h1 h2 := by
    unfold countGeP at h1 h2 ⊢
    exact le_trans h2 h1

/-! ## Characterizing the matcher's search -/

lemma listStartsWith_iff : ∀ (kw t : List Char),
    listStartsWith kw t = true ↔ ∃ post, t = kw ++ post
  | [], t => by simp [listStartsWith]
  | a :: as, [] => by simp [listStartsWith]
  | a :: as, b :: bs => by
    simp only [listStartsWith, Bool.and_eq_true, beq_iff_eq,
      listStartsWith_iff as bs, List.cons_append, List.cons.injEq]
    constructor
    · rintro ⟨rfl, post, rfl⟩
      exact ⟨post, rfl, rfl⟩
    · rintro ⟨post, rfl, rfl⟩
      exact ⟨rfl, post, rfl⟩

lemma okBoundary_iff (o : Option Char) :
    okBoundary o = true ↔ ∀ c, o = some c → isAlphaAZ c = false := by
  cases o <;> simp [okBoundary]

/-- The last character before the current scan position: the last of `pre`
when `pre` is nonempty, otherwise the carried `prev`. -/
def lastOr (prev : Option Char) (pre : List Char) : Option Char :=
  match pre.getLast? with
  | some c => some c
  | none => prev

lemma lastOr_nil (prev : Option Char) : lastOr prev [] = prev := rfl

lemma lastOr_none (pre : List Char) : lastOr none pre = pre.getLast? := by
  unfold lastOr
  cases h : pre.getLast? <;> rfl

lemma lastOr_cons (prev : Option Char) (c : Char) (pre : List Char) :
    lastOr prev (c :: pre) = lastOr (some c) pre := by
  cases pre with
  | nil => rfl
  | cons d l =>
    unfold lastOr
    rw [List.getLast?_cons_cons]
    obtain ⟨y, hy⟩ :=
      Option.isSome_iff_exists.mp (List.getLast?_isSome.mpr (List.cons_ne_nil d l))
    rw [hy]

lemma matchesHere_iff (kw t : List Char) (prev : Option Char) :
    matchesHere kw t prev = true ↔
      okBoundary prev = true ∧
        ∃ post, t = kw ++ post ∧ okBoundary post.head? = true := by
  unfold matchesHere
  simp only [Bool.and_eq_true, listStartsWith_iff]
  constructor
  · rintro ⟨⟨hprev, post, rfl⟩, hafter⟩
    refine ⟨hprev, post, rfl, ?_⟩
    rwa [List.drop_left] at hafter
  · rintro ⟨hprev, post, rfl, hafter⟩
    refine ⟨⟨hprev, post, rfl⟩, ?_⟩
    rwa [List.drop_left]

lemma searchFrom_iff (kw : List Char) : ∀ (t : List Char) (prev : Option Char),
    searchFrom kw prev t = true ↔
      ∃ pre post, t = pre ++ kw ++ post ∧
        okBoundary (lastOr prev pre) = true ∧
        okBoundary post.head? = true
  | [], prev => by
    rw [searchFrom, matchesHere_iff]
    constructor
    · rintro ⟨hprev, post, hpost, hafter⟩
      rcases List.append_eq_nil.mp hpost.symm with ⟨rfl, rfl⟩
      exact ⟨[], [], rfl, by rwa [lastOr_nil], hafter⟩
    · rintro ⟨pre, post, heq, h1, h2⟩
      rw [List.append_assoc] at heq
      rcases List.append_eq_nil.mp heq.symm with ⟨rfl, hrest⟩
      rcases List.append_eq_nil.mp hrest with ⟨rfl, rfl⟩
      exact ⟨by rwa [lastOr_nil] at h1, [], rfl, h2⟩
  | c :: rest, prev => by
    rw [searchFrom, Bool.or_eq_true, matchesHere_iff, searchFrom_iff kw rest (some c)]
    constructor
    · rintro (⟨hprev, post, heq, hafter⟩ | ⟨pre, post, heq, h1, h2⟩)
      · exact ⟨[], post, by simpa using heq, by rwa [lastOr_nil], hafter⟩
      · exact ⟨c :: pre, post, by simp [heq], by rwa [lastOr_cons], h2⟩
    · rintro ⟨pre, post, heq, h1, h2⟩
      cases pre with
      | nil =>
        exact Or.inl ⟨by rwa [lastOr_nil] at h1, post, by simpa using heq, h2⟩
      | cons c' pre' =>
        simp only [List.cons_append, List.cons.injEq] at heq
        obtain ⟨rfl, heq'⟩ := heq
        exact Or.inr ⟨pre', post, heq', by rwa [lastOr_cons] at h1, h2⟩

lemma wholeWordSearch_iff (kw text : List Char) :
    wholeWordSearch kw text = true ↔ occursWholeWord kw text := by
  unfold wholeWordSearch occursWholeWord
  rw [searchFrom_iff]
  constructor
  · rintro ⟨pre, post, heq, h1, h2⟩
    rw [lastOr_none] at h1
    exact ⟨pre, post, heq, (okBoundary_iff _).mp h1, (okBoundary_iff _).mp h2⟩
  · rintro ⟨pre, post, heq, h1, h2⟩
    exact ⟨pre, post, heq, by rw [lastOr_none]; exact (okBoundary_iff _).mpr h1,
      (okBoundary_iff _).mpr h2⟩

/-! ## Dictionary lookup after a load: last row wins -/

lemma findVal_dictInsert (k : String) (v : List String) :
    ∀ (m : List (String × List String)) (q : String),
      findVal (dictInsert k v m) q = if q = k then some v else findVal m q
  | [], q => by
    unfold dictInsert findVal
    by_cases h : q = k
    · subst h
      rw [List.find?_cons_of_pos _ (by simp)]
      simp
    · rw [List.find?_cons_of_neg _ (by simp [Ne.symm h])]
      simp [h]
  | p :: rest, q => by
    unfold dictInsert
    by_cases hp : p.1 = k
    · rw [if_pos hp]
      unfold findVal
      by_cases h : q = k
      · subst h
        rw [List.find?_cons_of_pos _ (by simp)]
        simp
      · rw [List.find?_cons_of_neg _ (by simp [Ne.symm h]),
          List.find?_cons_of_neg _ (by simp [hp, Ne.symm h])]
        simp [h]
    · rw [if_neg hp]
      unfold findVal
      by_cases hq : p.1 = q
      · rw [List.find?_cons_of_pos _ (by simp [hq]), List.find?_cons_of_pos _ (by simp [hq]),
          if_neg (fun hh => hp (hq.trans hh))]
      · rw [List.find?_cons_of_neg _ (by simp [hq]), List.find?_cons_of_neg _ (by simp [hq])]
        exact findVal_dictInsert k v rest q

lemma load_rows_eq_foldl_aux :
    ∀ (rows : List (String × String)) (m : List (String × List String)),
      rows.foldl (fun m row => match rowEntry row with
          | some (k, v) => dictInsert k v m
          | none => m) m =
        (rows.filterMap rowEntry).foldl (fun acc e => dictInsert e.1 e.2 acc) m
  | [], m => rfl
  | r :: rows, m => by
    rw [List.foldl_cons, List.filterMap_cons]
    cases h : rowEntry r with
    | none => exact load_rows_eq_foldl_aux rows m
    | some e => exact load_rows_eq_foldl_aux rows (dictInsert e.1 e.2 m)

lemma findVal_foldl_dictInsert :
    ∀ (entries : List (String × List String)) (m : List (String × List String)) (q : String),
      findVal (entries.foldl (fun acc e => dictInsert e.1 e.2 acc) m) q =
        ((entries.reverse.find? (fun p => p.1 == q)).map Prod.snd).or (findVal m q)
  | [], m, q => by simp
  | e :: es, m, q => by
    rw [List.foldl_cons, findVal_foldl_dictInsert es (dictInsert e.1 e.2 m) q,
      findVal_dictInsert, List.reverse_cons, List.find?_append]
    cases hf : es.reverse.find? (fun p => p.1 == q) with
    | some x => simp [Option.or]
    | none =>
      simp only [Option.none_or]
      by_cases he : e.1 = q
      · rw [List.find?_cons_of_pos _ (by simp [he]), if_pos he.symm]
        simp [Option.or]
      · rw [List.find?_cons_of_neg _ (by simp [he]), if_neg (fun hh => he hh.symm)]
        simp

/-- C1: for every keyword `k` of the dictionary and every text, `k` is
reported by `extract_keywords` exactly when `k` occurs in the lower-cased
text with no adjacent letter (whole-word, case-insensitive matching; the
keyword is matched literally, regex metacharacters included). -/
theorem extract_keywords_whole_word_iff
    (mappings : List (String × List String)) (text k : String)
    (hk : k ∈ mappings.map Prod.fst) (hne : k ≠ "") :
    k ∈ extract_keywords mappings text ↔
      occursWholeWord k.data (text.data.map Char.toLower) := by
  have hkd : k.data ≠ [] := fun h => hne (String.ext (h.trans rfl))
  have hm : mappings ≠ [] := by rintro rfl; simp at hk
  by_cases ht : text = ""
  · subst ht
    simp only [extract_keywords, if_pos rfl]
    constructor
    · intro h
      exact absurd h (by simp)
    · rintro ⟨pre, post, heq, h1, h2⟩
      have hnil : ([] : List Char) = pre ++ k.data ++ post := heq
      rw [List.append_assoc] at hnil
      rcases List.append_eq_nil.mp hnil.symm with ⟨rfl, hrest⟩
      rcases List.append_eq_nil.mp hrest with ⟨hk2, rfl⟩
      exact absurd hk2 hkd
  · simp only [extract_keywords, if_neg ht, if_neg hm, List.mem_filter,
      wholeWordSearch_iff]
    constructor
    · exact fun h => h.2
    · exact fun h => ⟨hk, h⟩

theorem extract_keywords_whole_word_iff_witness :
    occursWholeWord "gold".data ("Gold bar, ok".data.map Char.toLower) :=
  (extract_keywords_whole_word_iff [("gold", ["gold", "precious metals"])]
    "Gold bar, ok" "gold" (by decide) (by decide)).mp (by decide)

/-- C2: the concrete scenario of the spec, with the dictionary loaded from
the two CSV rows. -/
theorem generate_auto_tags_concrete_scenario :
    generate_auto_tags
        (load_rows [("gold", "gold, precious metals"), ("inflation", "inflation, economy")])
        "Gold prices rise amid inflation fears" [] =
      ["economy", "gold", "inflation", "precious metals"] ∧
    generate_auto_tags
        (load_rows [("gold", "gold, precious metals"), ("inflation", "inflation, economy")])
        "Gold prices rise amid inflation fears" ["gold"] =
      ["economy", "inflation", "precious metals"] ∧
    generate_auto_tags
        (load_rows [("gold", "gold, precious metals"), ("inflation", "inflation, economy")])
        "The golden rule" [] = [] :=
  ⟨by decide, by decide, by decide⟩

/-- C3 counterexample: the claim normalizes removed tags by trimming and
lower-casing, but the code only lower-cases; the removed tag `" gold "`
does not suppress the generated tag `"gold"`, so the trimmed-and-lowered
form of a removed tag can appear in the output. -/
theorem generate_auto_tags_trimmed_removed_counterexample :
    " gold " ∈ ([" gold "] : List String) ∧
    strTrimLower " gold " ∈ generate_auto_tags [("gold", ["gold"])] "gold" [" gold "] :=
  ⟨by decide, by decide⟩

/-- C3 (amended): for every tag `t` of `removed_tags`, the lower-cased
(but not trimmed) form of `t` is not in the output of
`generate_auto_tags`. -/
theorem generate_auto_tags_removed_lower_not_mem
    (mappings : List (String × List String)) (text : String)
    (removed_tags : List String) (t : String) (h : t ∈ removed_tags) :
    strLower t ∉ generate_auto_tags mappings text removed_tags := by
  intro hmem
  have hne : removed_tags ≠ [] := by rintro rfl; exact absurd h (by simp)
  simp only [generate_auto_tags, if_neg hne] at hmem
  split_ifs at hmem with h1 h2
  · exact absurd hmem (by simp)
  · exact absurd hmem (by simp)
  · rw [(List.perm_insertionSort _ _).mem_iff, List.mem_filter] at hmem
    exact of_decide_eq_true hmem.2 (List.mem_map.mpr ⟨t, h, rfl⟩)

theorem generate_auto_tags_removed_lower_not_mem_witness :
    strLower "Gold" ∉ generate_auto_tags [("gold", ["gold"])] "gold bar" ["Gold"] :=
  generate_auto_tags_removed_lower_not_mem [("gold", ["gold"])] "gold bar" ["Gold"] "Gold"
    (by decide)

/-- C4: `generate_auto_tags` is total (modelled as a Lean function) and
returns the empty list for an empty text or an empty dictionary, for every
`removed_tags` argument. -/
theorem generate_auto_tags_empty_inputs
    (mappings : List (String × List String)) (text : String)
    (removed removed' : List String) :
    generate_auto_tags mappings "" removed = [] ∧
    generate_auto_tags [] text removed' = [] := by
  constructor
  · simp [generate_auto_tags]
  · by_cases h : text = "" <;> simp [generate_auto_tags, h]

/-- C6 counterexample: the row `("gold", ",")` has a non-empty tags cell
whose items are all blank, so the code stores `gold` with an empty tag
list, contradicting the claim that no keyword with an empty tag set is
ever stored. -/
theorem load_rows_empty_tags_counterexample :
    load_rows [("gold", ",")] = [("gold", [])] ∧
    ("gold", ([] : List String)) ∈ load_rows [("gold", ",")] :=
  ⟨by decide, by decide⟩

/-- C6 (amended): the mapping built by the loader answers every lookup with
the parsed tags of the last surviving row for that keyword — rows are
normalized and filtered by `rowEntry` (keyword trimmed + lower-cased, tags
trimmed + lower-cased with blank items dropped, rows with blank keyword or
blank tags cell skipped), and on duplicate keywords the last row wins. -/
theorem load_rows_last_wins (rows : List (String × String)) (q : String) :
    findVal (load_rows rows) q =
      ((rows.filterMap rowEntry).reverse.find? (fun p => p.1 == q)).map Prod.snd := by
  unfold load_rows
  rw [load_rows_eq_foldl_aux, findVal_foldl_dictInsert]
  simp [findVal]

/-- C5: `remove_auto_tag` reports not-found (leaving the state untouched)
when the tag is absent case-insensitively; on success it removes every
case-insensitive occurrence from `auto_tags`, keeps the other entries,
appends the lower-cased tag to `removed_auto_tags` exactly when no
case-insensitive occurrence is already there, and a second call with the
same tag reports not-found (so the operation is idempotent). -/
theorem remove_auto_tag_idempotent (st : QuoteTagState) (tag : String)
    (h : tag ≠ "") :
    (strLower tag ∉ st.auto_tags.map strLower →
      remove_auto_tag st tag = .error "Tag not found in auto_tags") ∧
    (∀ st', remove_auto_tag st tag = .ok st' →
      strLower tag ∉ st'.auto_tags.map strLower ∧
      (∀ t ∈ st.auto_tags, strLower t ≠ strLower tag → t ∈ st'.auto_tags) ∧
      (strLower tag ∈ st.removed_auto_tags.map strLower →
        st'.removed_auto_tags = st.removed_auto_tags) ∧
      (strLower tag ∉ st.removed_auto_tags.map strLower →
        st'.removed_auto_tags = st.removed_auto_tags ++ [strLower tag]) ∧
      remove_auto_tag st' tag = .error "Tag not found in auto_tags") := by
  constructor
  · intro habs
    simp only [remove_auto_tag, if_neg h]
    rw [if_neg habs]
  · intro st' hok
    simp only [remove_auto_tag, if_neg h] at hok
    by_cases hmem : strLower tag ∈ st.auto_tags.map strLower
    · rw [if_pos hmem] at hok
      obtain rfl := (Except.ok.inj hok).symm
      have hout : strLower tag ∉
          (st.auto_tags.filter (fun t => strLower t != strLower tag)).map strLower := by
        intro hx
        obtain ⟨x, hxf, hxl⟩ := List.mem_map.mp hx
        exact absurd hxl (bne_iff_ne.mp (List.mem_filter.mp hxf).2)
      refine ⟨hout, ?_, ?_, ?_, ?_⟩
      · intro t ht hne
        exact List.mem_filter.mpr ⟨ht, bne_iff_ne.mpr hne⟩
      · intro hr
        simp only [if_pos hr]
      · intro hr
        simp only [if_neg hr]
      · simp only [remove_auto_tag, if_neg h]
        rw [if_neg hout]
    · rw [if_neg hmem] at hok
      exact absurd hok (by simp)

theorem remove_auto_tag_idempotent_witness :
    remove_auto_tag ⟨["Gold"], []⟩ "silver" = .error "Tag not found in auto_tags" :=
  (remove_auto_tag_idempotent ⟨["Gold"], []⟩ "silver" (by decide)).1 (by decide)

lemma round1_close (q : ℚ) : |round1 q - q| ≤ 1 / 20 := by
  unfold round1
  have h := abs_sub_round (10 * q)
  rw [abs_sub_comm] at h
  have h10 : ((round (10 * q) : ℤ) : ℚ) / 10 - q =
      (((round (10 * q) : ℤ) : ℚ) - 10 * q) / 10 := by ring
  rw [h10, abs_div, show |(10 : ℚ)| = 10 by norm_num]
  calc |((round (10 * q) : ℤ) : ℚ) - 10 * q| / 10 ≤ (1 / 2) / 10 :=
        (div_le_div_iff_of_pos_right (by norm_num)).mpr h
    _ = 1 / 20 := by norm_num

/-- C7 counterexample: the code's `top_tags` keeps count-ties in
first-occurrence (insertion) order of the frequency dict, not in ascending
lexicographic tag order as the claim states. -/
theorem top_tags_tie_order_counterexample :
    (get_tag_statistics [["zebra"], ["apple"]] []).top_tags =
      [("zebra", 1), ("apple", 1)] ∧
    (get_tag_statistics [["zebra"], ["apple"]] []).top_tags ≠
      topTagsSpec (get_tag_statistics [["zebra"], ["apple"]] []).tag_frequency :=
  ⟨by decide, by decide⟩

/-- C7 (amended): `top_tags` is the frequency pairs sorted descending by
count (ties in first-occurrence order), truncated to at most 20 entries
and drawn from the frequency mapping; the coverage percentage is the
one-decimal rounding of `quotes_with / total * 100` (hence within `1/20`
of it), and on the empty collection the totals, coverage and top list are
all zero/empty. -/
theorem get_tag_statistics_spec (all_quotes_data : List (List String))
    (mappings : List (String × List String)) :
    List.Sorted countGeP (get_tag_statistics all_quotes_data mappings).top_tags ∧
    (get_tag_statistics all_quotes_data mappings).top_tags.length ≤ 20 ∧
    (∀ p ∈ (get_tag_statistics all_quotes_data mappings).top_tags,
      p ∈ (get_tag_statistics all_quotes_data mappings).tag_frequency) ∧
    (0 < all_quotes_data.length →
      |(get_tag_statistics all_quotes_data mappings).coverage_percentage -
        ((get_tag_statistics all_quotes_data mappings).quotes_with_auto_tags : ℚ) /
          ((get_tag_statistics all_quotes_data mappings).total_quotes : ℚ) * 100| ≤
        1 / 20) ∧
    (get_tag_statistics [] mappings).total_quotes = 0 ∧
    (get_tag_statistics [] mappings).coverage_percentage = 0 ∧
    (get_tag_statistics [] mappings).top_tags = [] := by
  refine ⟨?_, ?_, ?_, ?_, rfl, ?_, rfl⟩
  · simp only [get_tag_statistics]
    exact List.Pairwise.sublist (List.take_sublist _ _)
      (List.sorted_insertionSort countGeP _)
  · simp only [get_tag_statistics, List.length_take]
    exact min_le_left _ _
  · intro p hp
    simp only [get_tag_statistics] at hp ⊢
    exact (List.perm_insertionSort countGeP _).mem_iff.mp
      ((List.take_sublist _ _).subset hp)
  · intro hlen
    simp only [get_tag_statistics, if_pos hlen]
    exact round1_close _
  · simp [get_tag_statistics, round1]

theorem get_tag_statistics_spec_witness :
    |(get_tag_statistics [["gold"]] []).coverage_percentage -
      ((get_tag_statistics [["gold"]] []).quotes_with_auto_tags : ℚ) /
        ((get_tag_statistics [["gold"]] []).total_quotes : ℚ) * 100| ≤ 1 / 20 :=
  (get_tag_statistics_spec [["gold"]] []).2.2.2.1 (by decide)

/-- C8: for a fixed dictionary snapshot and fixed arguments the synthesis
is deterministic (a pure function, so two calls agree) and its output is a
sorted, duplicate-free list. -/
theorem generate_auto_tags_sorted_nodup_deterministic
    (mappings : List (String × List String)) (text : String)
    (removed_tags : List String) :
    List.Sorted strLeP (generate_auto_tags mappings text removed_tags) ∧
    (generate_auto_tags mappings text removed_tags).Nodup ∧
    generate_auto_tags mappings text removed_tags =
      generate_auto_tags mappings text removed_tags := by
  refine ⟨?_, ?_, rfl⟩
  · simp only [generate_auto_tags]
    split_ifs with h1 h2 h3
    · exact List.sorted_nil
    · exact List.sorted_nil
    · exact List.sorted_insertionSort strLeP _
    · exact List.sorted_insertionSort strLeP _
  · simp only [generate_auto_tags]
    split_ifs with h1 h2 h3
    · exact List.nodup_nil
    · exact List.nodup_nil
    · exact (List.perm_insertionSort strLeP _).symm.nodup (List.nodup_dedup _)
    · exact (List.perm_insertionSort strLeP _).symm.nodup
        ((List.nodup_dedup _).filter _)

/-- C9: when the CSV file is missing the loader returns an empty mapping
but leaves the process-wide cache untouched (so `get_keyword_mappings`
still serves the prior snapshot and `reload_keyword_mappings` reports the
prior entry count), whereas a read/parse exception resets the cache to
empty. -/
theorem cache_missing_vs_error_behaviour (cache : List (String × List String)) :
    load_keyword_mappings_st cache .missing = ([], cache) ∧
    load_keyword_mappings_st cache .ioError = ([], []) ∧
    (cache ≠ [] → get_keyword_mappings_st cache .missing = (cache, cache)) ∧
    reload_keyword_mappings_st cache .missing = (cache.length, cache) ∧
    reload_keyword_mappings_st cache .ioError = (0, []) := by
  refine ⟨rfl, rfl, ?_, rfl, rfl⟩
  intro h
  simp [get_keyword_mappings_st, h]

theorem cache_missing_vs_error_behaviour_witness :
    get_keyword_mappings_st [("gold", ["gold"])] .missing =
      ([("gold", ["gold"])], [("gold", ["gold"])]) :=
  (cache_missing_vs_error_behaviour [("gold", ["gold"])]).2.2.1 (by decide)

lemma mem_tags_of_mem_dedup_flatten {t : String}
    {mappings : List (String × List String)} {matched : List String}
    (ht : t ∈ ((matched.map (fun k => lookupTags mappings k)).flatten).dedup) :
    ∃ k ∈ matched, t ∈ lookupTags mappings k := by
  rw [List.mem_dedup, List.mem_flatten] at ht
  obtain ⟨l, hl, htl⟩ := ht
  obtain ⟨k, hk, rfl⟩ := List.mem_map.mp hl
  exact ⟨k, hk, htl⟩

/-- C10: matched keywords all come from the dictionary's key set, and
every generated tag belongs to the tag list of some matched keyword. -/
theorem tags_from_dictionary_universe (mappings : List (String × List String))
    (text : String) (removed_tags : List String) :
    (∀ k ∈ extract_keywords mappings text, k ∈ mappings.map Prod.fst) ∧
    (∀ t ∈ generate_auto_tags mappings text removed_tags,
      ∃ k ∈ extract_keywords mappings text, t ∈ lookupTags mappings k) := by
  constructor
  · intro k hk
    simp only [extract_keywords] at hk
    split_ifs at hk with h1 h2
    · exact absurd hk (by simp)
    · exact absurd hk (by simp)
    · exact (List.mem_filter.mp hk).1
  · intro t ht
    simp only [generate_auto_tags] at ht
    split_ifs at ht with h1 h2 h3
    · exact absurd ht (by simp)
    · exact absurd ht (by simp)
    · rw [(List.perm_insertionSort strLeP _).mem_iff] at ht
      exact mem_tags_of_mem_dedup_flatten ht
    · rw [(List.perm_insertionSort strLeP _).mem_iff, List.mem_filter] at ht
      exact mem_tags_of_mem_dedup_flatten ht.1

theorem tags_from_dictionary_universe_witness :
    ("gold" ∈ List.map Prod.fst [("gold", ["gold"])]) ∧
    ∃ k ∈ extract_keywords [("gold", ["gold"])] "gold",
      "gold" ∈ lookupTags [("gold", ["gold"])] k :=
  ⟨(tags_from_dictionary_universe [("gold", ["gold"])] "gold" []).1 "gold" (by decide),
    (tags_from_dictionary_universe [("gold", ["gold"])] "gold" []).2 "gold" (by decide)⟩
